import Mathlib

/-!
Verification development for the `look-optique` repository (two Python
pipelines: `src/code.py` extracting client name/number from PDF text, and
`src/ordonnance.py` extracting prescription fields).

The embedding is shallow: the pure text-processing functions are translated
to Lean functions over `List Char` / `String`; the external PDF / OCR
collaborators are abstracted as an explicit environment record; Python's
`re` searches are executed by a small backtracking engine (`mtch` /
`research`) over pattern ASTs (`RE`) transcribed literally from the source
patterns.  Character predicates use the code-point value (`Char.toNat`);
case-insensitivity is folded over ASCII and the Latin-1 letter block (plus
the `Œ`/`œ` pair appearing in a pattern), which covers every character the
source patterns mention.
-/

/-- Python whitespace (`str.strip()` default / `\s`), restricted to the
Latin-1 range: space, tab, LF, VT, FF, CR, FS/GS/RS/US, NEL, NBSP. -/
def isPyWs (c : Char) : Bool :=
  c.toNat = 32 || c.toNat = 9 || c.toNat = 10 || c.toNat = 13 ||
  c.toNat = 11 || c.toNat = 12 || (28 ≤ c.toNat && c.toNat ≤ 31) ||
  c.toNat = 133 || c.toNat = 160

/-- The class `[ \t]` used by `re.sub(r"[ \t]+", " ", t)`. -/
def isSpTab (c : Char) : Bool := c.toNat = 32 || c.toNat = 9

/-- The class `[0-9]` (also Python `\d` on the inputs in scope). -/
def isDigitCh (c : Char) : Bool := 48 ≤ c.toNat && c.toNat ≤ 57

/-- Word characters for `\b`: ASCII alphanumerics, `_`, and Latin-1 letters. -/
def isWordCh (c : Char) : Bool :=
  (48 ≤ c.toNat && c.toNat ≤ 57) || (65 ≤ c.toNat && c.toNat ≤ 90) ||
  (97 ≤ c.toNat && c.toNat ≤ 122) || c.toNat = 95 ||
  (192 ≤ c.toNat && c.toNat ≤ 255 && !(c.toNat = 215) && !(c.toNat = 247))

/-- Case folding for `re.IGNORECASE`: ASCII `A`-`Z`, Latin-1 `À`-`Þ`
(excluding `×`), and `Œ` are lowered; everything else is fixed. -/
def lowerX (c : Char) : Char :=
  if 65 ≤ c.toNat ∧ c.toNat ≤ 90 then Char.ofNat (c.toNat + 32)
  else if 192 ≤ c.toNat ∧ c.toNat ≤ 222 ∧ ¬ c.toNat = 215 then Char.ofNat (c.toNat + 32)
  else if c.toNat = 338 then Char.ofNat 339
  else c

/-- Case-insensitive single-character match against pattern character `p`. -/
def ciEq (p : Char) (c : Char) : Bool := lowerX c = lowerX p

/-- The name class `[A-Za-zÀ-ÿ' \-]` of the person pattern. -/
def isNameCh (c : Char) : Bool :=
  (65 ≤ c.toNat && c.toNat ≤ 90) || (97 ≤ c.toNat && c.toNat ≤ 122) ||
  (192 ≤ c.toNat && c.toNat ≤ 255) || c.toNat = 39 || c.toNat = 32 || c.toNat = 45

/-- Python `str.strip()` on a character list: drop leading and trailing
whitespace. -/
def pstrip (l : List Char) : List Char :=
  ((l.dropWhile isPyWs).reverse.dropWhile isPyWs).reverse

/-- `text.replace("\xa0", " ")` (single-character replacement). -/
def nbspToSp (l : List Char) : List Char :=
  l.map fun c => if c.toNat = 160 then ' ' else c

/-- `re.sub(r"[ \t]+", " ", t)`: each maximal run of spaces/tabs becomes a
single space. -/
def collapseWs : List Char → List Char
  | [] => []
  | c :: cs =>
    if isSpTab c then
      match cs with
      | [] => [' ']
      | d :: ds => if isSpTab d then collapseWs (d :: ds) else ' ' :: collapseWs (d :: ds)
    else c :: collapseWs cs

/-- `"\n".join(parts)` on character lists. -/
def joinNL (parts : List (List Char)) : List Char := List.intercalate ['\n'] parts

/-- Regex pattern AST: the constructs appearing in the source patterns.
`cls` is a character class (predicate), `opt` is greedy `?`, `starG` is
greedy `*`, `starL` lazy `*?`, `group` a numbered capturing group, `wordB`
the `\b` assertion. -/
inductive RE where
  | eps : RE
  | cls : (Char → Bool) → RE
  | seq : RE → RE → RE
  | alt : RE → RE → RE
  | opt : RE → RE
  | starG : RE → RE
  | starL : RE → RE
  | group : Nat → RE → RE
  | wordB : RE

/-- Group bindings of a match: group number to (start, end) span. -/
def GroupMap : Type := Nat → Option (Nat × Nat)

def emptyG : GroupMap := fun _ => none

def setG (g : GroupMap) (n a b : Nat) : GroupMap :=
  fun m => if m = n then some (a, b) else g m

def wordAt (input : List Char) (i : Nat) : Bool :=
  match input[i]? with
  | some c => isWordCh c
  | none => false

def wordBoundary (input : List Char) (i : Nat) : Bool :=
  (if i = 0 then false else wordAt input (i - 1)) != wordAt input i

/-- Backtracking matcher.  `mtch input fuel re i g` returns the list of
outcomes `(end position, group bindings)` of matching `re` at position `i`,
in Python's backtracking priority order (alternation left first, greedy
longest first, lazy shortest first).  `fuel` bounds the recursion depth and
is chosen generously by `research`; repetition bodies in the source
patterns always consume at least one character, mirrored by the
`o.1` progress guards. -/
def mtch (input : List Char) : Nat → RE → Nat → GroupMap → List (Nat × GroupMap)
  | 0, _, _, _ => []
  | _ + 1, .eps, i, g => [(i, g)]
  | _ + 1, .cls p, i, g =>
    match input[i]? with
    | some c => if p c then [(i + 1, g)] else []
    | none => []
  | fuel + 1, .seq a b, i, g =>
    (mtch input fuel a i g).flatMap fun o => mtch input fuel b o.1 o.2
  | fuel + 1, .alt a b, i, g => mtch input fuel a i g ++ mtch input fuel b i g
  | fuel + 1, .opt a, i, g => mtch input fuel a i g ++ [(i, g)]
  | fuel + 1, .starG a, i, g =>
    ((mtch input fuel a i g).flatMap fun o =>
      if i < o.1 then mtch input fuel (.starG a) o.1 o.2 else []) ++ [(i, g)]
  | fuel + 1, .starL a, i, g =>
    (i, g) :: ((mtch input fuel a i g).flatMap fun o =>
      if i < o.1 then mtch input fuel (.starL a) o.1 o.2 else [])
  | fuel + 1, .group n a, i, g =>
    (mtch input fuel a i g).map fun o => (o.1, setG o.2 n i o.1)
  | _ + 1, .wordB, i, g => if wordBoundary input i then [(i, g)] else []

def sizeRE : RE → Nat
  | .eps => 1
  | .cls _ => 1
  | .wordB => 1
  | .seq a b => sizeRE a + sizeRE b + 1
  | .alt a b => sizeRE a + sizeRE b + 1
  | .opt a => sizeRE a + 1
  | .starG a => sizeRE a + 1
  | .starL a => sizeRE a + 1
  | .group _ a => sizeRE a + 1

/-- Fuel bound: comfortably exceeds the call depth of any match of the
source patterns (each repetition iteration consumes a character). -/
def fuelFor (re : RE) (input : List Char) : Nat :=
  (sizeRE re + 2) * (input.length + 2)

/-- `re.search`: try each start position left to right, return the first
position where the pattern matches, with the first outcome in backtracking
priority order: `(start, end, groups)`. -/
def research (re : RE) (input : List Char) : Option (Nat × Nat × GroupMap) :=
  (List.range (input.length + 1)).findSome? fun i =>
    match mtch input (fuelFor re input) re i emptyG with
    | [] => none
    | o :: _ => some (i, o.1, o.2)

/-- `m.group(n)`: the captured substring (empty if the group is unbound,
which never happens for the groups the source reads). -/
def capture (input : List Char) (m : Nat × Nat × GroupMap) (n : Nat) : List Char :=
  match m.2.2 n with
  | some (a, b) => (input.drop a).take (b - a)
  | none => []

/-- Case-insensitive literal word: sequence of single-character classes. -/
def litCI (w : List Char) : RE := w.foldr (fun c r => .seq (.cls (ciEq c)) r) .eps

/-- A single literal character (no case folding needed). -/
def litc (c : Char) : RE := .cls fun d => d = c

def seqs (l : List RE) : RE := l.foldr .seq .eps

def plusG (a : RE) : RE := .seq a (.starG a)

def plusL (a : RE) : RE := .seq a (.starL a)

def wsStar : RE := .starG (.cls isPyWs)

def wsPlus : RE := plusG (.cls isPyWs)

/-- The class `[:\-]`. -/
def sepCls : RE := .cls fun c => c = ':' || c = '-'

/-- `[0-9 \-]`. -/
def numBodyCls : RE := .cls fun c => isDigitCh c || c = ' ' || c = '-'

/-- `X{10,}` (greedy): ten mandatory copies followed by a greedy star. -/
def atLeast10 (a : RE) : RE := seqs (List.replicate 10 a ++ [.starG a])

/-- `r"Mon\s+num[eé]ro\s*[:\-]?\s*([0-9][0-9 \-]{10,})"` with IGNORECASE
(src/code.py lines 98-102). -/
def reNum : RE :=
  seqs [litCI "Mon".data, wsPlus,
        litCI "num".data, .cls (fun c => ciEq 'e' c || ciEq 'é' c), litCI "ro".data,
        wsStar, .opt sepCls, wsStar,
        .group 1 (.seq (.cls isDigitCh) (atLeast10 numBodyCls))]

/-- `r"Mon\s+nom\s+ou\s+celui\s+de\s+mon\s+ayant\s+droit\s*[:\-]?\s*([^\n]+)"`
with IGNORECASE (src/code.py lines 118-122). -/
def reName : RE :=
  seqs [litCI "Mon".data, wsPlus, litCI "nom".data, wsPlus, litCI "ou".data, wsPlus,
        litCI "celui".data, wsPlus, litCI "de".data, wsPlus, litCI "mon".data, wsPlus,
        litCI "ayant".data, wsPlus, litCI "droit".data,
        wsStar, .opt sepCls, wsStar,
        .group 1 (plusG (.cls fun c => !(c = '\n')))]

/-- The title alternation `(Monsieur|Madame|Mlle|M\.|Enfant)` of the person
pattern (src/ordonnance.py line 73), in source order. -/
def reTitle : RE :=
  .alt (litCI "Monsieur".data)
    (.alt (litCI "Madame".data)
      (.alt (litCI "Mlle".data)
        (.alt (litCI "M.".data) (litCI "Enfant".data))))

/-- `\d{2}/\d{2}/\d{4}`. -/
def reDate : RE :=
  seqs [.cls isDigitCh, .cls isDigitCh, litc '/',
        .cls isDigitCh, .cls isDigitCh, litc '/',
        .cls isDigitCh, .cls isDigitCh, .cls isDigitCh, .cls isDigitCh]

/-- Everything of the person pattern after the title group:
`\s+([A-Za-zÀ-ÿ' \-]+?)\s*\((\d{2}/\d{2}/\d{4})\)`. -/
def rePersonTail : RE :=
  seqs [wsPlus, .group 2 (plusL (.cls isNameCh)), wsStar,
        litc '(', .group 3 reDate, litc ')']

/-- `r"\b(Monsieur|Madame|Mlle|M\.|Enfant)\s+([A-Za-zÀ-ÿ' \-]+?)\s*\((\d{2}/\d{2}/\d{4})\)"`
with IGNORECASE (src/ordonnance.py lines 72-76). -/
def rePerson : RE := .seq .wordB (.seq (.group 1 reTitle) rePersonTail)

/-- `[+\-]?\d+(?:[.,]\d+)?` — the eye-value capture. -/
def reEyeVal : RE :=
  seqs [.opt (.cls fun c => c = '+' || c = '-'),
        plusG (.cls isDigitCh),
        .opt (.seq (.cls fun c => c = '.' || c = ',') (plusG (.cls isDigitCh)))]

/-- `r"(?:Oeil|Œil)\s*Droit\s*[:\-]?\s*([+\-]?\d+(?:[.,]\d+)?)"` with
IGNORECASE (src/ordonnance.py lines 82-86). -/
def reOD : RE :=
  seqs [.alt (litCI "Oeil".data) (litCI "Œil".data), wsStar, litCI "Droit".data,
        wsStar, .opt sepCls, wsStar, .group 1 reEyeVal]

/-- `r"(?:Oeil|Œil)\s*Gauche\s*[:\-]?\s*([+\-]?\d+(?:[.,]\d+)?)"` with
IGNORECASE (src/ordonnance.py lines 87-91). -/
def reOG : RE :=
  seqs [.alt (litCI "Oeil".data) (litCI "Œil".data), wsStar, litCI "Gauche".data,
        wsStar, .opt sepCls, wsStar, .group 1 reEyeVal]

/-- Environment abstracting the external collaborators of
`extract_text_pdf` (src/code.py lines 34-76, src/ordonnance.py lines
31-61): `structuralPages` is the per-page embedded text delivered by the
PDF reader (`none` models an exception anywhere during the structural
attempt), `ocrPages` the per-page text the OCR engine would produce, and
`popplerPath` the `POPPLER_PATH` environment value. -/
structure PdfEnv where
  structuralPages : Option (List String)
  ocrPages : List String
  popplerPath : Option String

/-- Python truthiness of an optional string (`if not POPPLER_PATH`). -/
def pyTruthyStr : Option String → Bool
  | none => false
  | some s => !s.isEmpty

/-- The structural text: keep truthy (non-empty) page texts, join with
newlines, strip — `"\n".join(text_parts).strip()`. -/
def structuralTextOf : Option (List String) → Option String
  | none => none
  | some pages =>
    some (String.mk (pstrip (joinNL ((pages.filter fun p => !p.isEmpty).map String.data))))

/-- The OCR result blob: `"\n".join(ocr_text_parts)` (no strip). -/
def ocrTextOf (ocrPages : List String) : String :=
  String.mk (joinNL (ocrPages.map String.data))

/-- `extract_text_pdf`: structural extraction first; accept if the stripped
text has length strictly greater than 30; otherwise (including structural
failure) fall back to OCR, raising `RuntimeError("POPPLER_PATH is not set
in .env")` when `POPPLER_PATH` is not truthy. -/
def extract_text_pdf (env : PdfEnv) : Except String String :=
  let structStep : Option String :=
    match structuralTextOf env.structuralPages with
    | some text => if 30 < text.length then some text else none
    | none => none
  match structStep with
  | some text => .ok text
  | none =>
    if !pyTruthyStr env.popplerPath then .error "POPPLER_PATH is not set in .env"
    else .ok (ocrTextOf env.ocrPages)

/-- `format_number_2digit_groups` (src/code.py lines 80-85): first digit
alone, then slices `digits[i:i+2]` for `i = 1, 3, 5, ...`, joined by single
spaces.  `digits[0]` raises `IndexError` on the empty string, modelled by
`none`. -/
def chunks2 : List Char → List (List Char)
  | [] => []
  | [a] => [[a]]
  | a :: b :: r => [a, b] :: chunks2 r

def format_number_2digit_groups (digits : List Char) : Option (List Char) :=
  match digits with
  | [] => none
  | d :: rest => some (List.intercalate [' '] ([d] :: chunks2 rest))

/-- The whitespace-normalised text `t` of `extract_client_info` /
`parse_ordonnance`: replace NBSP by space, collapse `[ \t]+` runs. -/
def normT (text : String) : List Char := collapseWs (nbspToSp text.data)

/-- The raw span captured by group 1 of the number pattern, if it matches
the normalised text (`num_match.group(1)`). -/
def numCaptureRaw (text : String) : Option (List Char) :=
  (research reNum (normT text)).map fun m => capture (normT text) m 1

/-- The raw span captured by group 1 of the name pattern on the
*original* text (`name_match.group(1)`, src/code.py line 118-122). -/
def nameCaptureRaw (text : String) : Option (List Char) :=
  (research reName text.data).map fun m => capture text.data m 1

/-- The number-normalisation block of `extract_client_info` (src/code.py
lines 104-115): the argument is `num_match.group(1).strip() if num_match
else None`; the result is the final `client_number`, with the outer
`Option` modelling an uncaught exception (`none` would mean the unguarded
`digits[0]` index in `format_number_2digit_groups` raised; the Python
truthiness test `if client_number:` skips the block for `None` and for the
empty string). -/
def clientNumberStep : Option (List Char) → Option (Option (List Char))
  | some cn =>
    if cn = [] then some (some cn)
    else
      let digits := cn.filter isDigitCh
      if 15 ≤ digits.length then
        match format_number_2digit_groups (digits.take 15) with
        | some f => some (some f)
        | none => none
      else some (some (pstrip (cn.filter fun c => isDigitCh c || c = ' ')))
  | none => some none

/-- `extract_client_info` (src/code.py lines 89-126).  The outer `Option`
models the possibility of an uncaught exception; the payload is the
returned `(client_name, client_number)` pair. -/
def extract_client_info (text : String) : Option (Option String × Option String) :=
  let client_numberE := clientNumberStep ((numCaptureRaw text).map pstrip)
  let client_name : Option String := (nameCaptureRaw text).map fun r => String.mk (pstrip r)
  client_numberE.map fun n => (client_name, n.map String.mk)

/-- The three captures of the person pattern, if it matches the normalised
text. -/
def personCaptures (text : String) : Option (List Char × List Char × List Char) :=
  (research rePerson (normT text)).map fun m =>
    (capture (normT text) m 1, capture (normT text) m 2, capture (normT text) m 3)

/-- Group 1 of the right-eye pattern on the normalised text. -/
def odCapture (text : String) : Option (List Char) :=
  (research reOD (normT text)).map fun m => capture (normT text) m 1

/-- Group 1 of the left-eye pattern on the normalised text. -/
def ogCapture (text : String) : Option (List Char) :=
  (research reOG (normT text)).map fun m => capture (normT text) m 1

/-- `v.replace(",", ".")` (single-character replacement). -/
def commaToDot (l : List Char) : List Char :=
  l.map fun c => if c = ',' then '.' else c

/-- The record returned by `parse_ordonnance` (the `file` key is attached
later by `process_pdf`). -/
structure OrdRecord where
  title : Option String
  full_name : Option String
  birthdate : Option String
  eye_right : Option String
  eye_left : Option String
deriving DecidableEq, Repr

/-- `parse_ordonnance` (src/ordonnance.py lines 67-102). -/
def parse_ordonnance (text : String) : OrdRecord :=
  let person := personCaptures text
  { title := person.map fun p => String.mk (pstrip p.1)
    full_name := person.map fun p => String.mk (pstrip p.2.1)
    birthdate := person.map fun p => String.mk (pstrip p.2.2)
    eye_right := (odCapture text).map fun v => String.mk (commaToDot v)
    eye_left := (ogCapture text).map fun v => String.mk (commaToDot v) }

/-- Python's string comparison: lexicographic by code point, a proper
prefix sorting first. -/
def lexLe : List Char → List Char → Bool
  | [], _ => true
  | _ :: _, [] => false
  | a :: as, b :: bs =>
    if a.toNat < b.toNat then true
    else if b.toNat < a.toNat then false
    else lexLe as bs

/-- Python `s1 <= s2` on path strings. -/
def strLeB (a b : String) : Bool := lexLe a.data b.data

/-- The batch runner's document ordering (src/code.py line 170,
src/ordonnance.py line 129): `sorted(...glob(...))` over the discovered
paths, then sequential processing.  `discovered` is the filesystem
enumeration in arbitrary order; `processDoc` abstracts `process_pdf`. -/
def runBatch {α : Type} (processDoc : String → α) (discovered : List String) : List α :=
  (List.insertionSort (fun a b => strLeB a b = true) discovered).map processDoc

/-- `re` contains no capturing group numbered `n`. -/
def noGroup (n : Nat) : RE → Prop
  | .eps => True
  | .cls _ => True
  | .wordB => True
  | .seq a b => noGroup n a ∧ noGroup n b
  | .alt a b => noGroup n a ∧ noGroup n b
  | .opt a => noGroup n a
  | .starG a => noGroup n a
  | .starL a => noGroup n a
  | .group m a => ¬(m = n) ∧ noGroup n a

/-- Drop trailing Python whitespace. -/
def rdropWs (l : List Char) : List Char := (l.reverse.dropWhile isPyWs).reverse

/-- The five words of the title alternation, in source order. -/
def titleWords : List (List Char) :=
  ["Monsieur".data, "Madame".data, "Mlle".data, "M.".data, "Enfant".data]

/-- The five title words lowercased. -/
def titleWordsLower : List (List Char) :=
  ["monsieur".data, "madame".data, "mlle".data, "m.".data, "enfant".data]

/-- The OCR fallback branch of `extract_text_pdf` is reached: structural
extraction failed, or its stripped text has length at most 30. -/
def ocrNeeded (env : PdfEnv) : Bool :=
  match structuralTextOf env.structuralPages with
  | none => true
  | some t => decide (t.length ≤ 30)

lemma pstrip_eq_rdropWs_dropWhile (l : List Char) :
    pstrip l = rdropWs (l.dropWhile isPyWs) := rfl

lemma dropWhile_eq_self_of_all {p : Char → Bool} {l : List Char}
    (h : ∀ c ∈ l, p c = false) : l.dropWhile p = l := by
  cases l with
  | nil => rfl
  | cons c cs => simp [List.dropWhile_cons, h c (List.mem_cons_self c cs)]

lemma dropWhile_eq_nil_of_all {p : Char → Bool} {l : List Char}
    (h : ∀ c ∈ l, p c = true) : l.dropWhile p = [] := by
  induction l with
  | nil => rfl
  | cons c cs ih =>
    simp only [List.dropWhile_cons, h c (List.mem_cons_self c cs), if_true]
    exact ih fun c hc => h c (List.mem_cons_of_mem _ hc)

lemma dropWhile_head_not {p : Char → Bool} :
    ∀ {l : List Char} {c : Char} {cs : List Char},
      l.dropWhile p = c :: cs → p c = false := by
  intro l
  induction l with
  | nil => intro c cs h; simp at h
  | cons a as ih =>
    intro c cs h
    rw [List.dropWhile_cons] at h
    by_cases hp : p a
    · simp only [hp, if_true] at h; exact ih h
    · simp [hp] at h
      rw [h.1] at hp
      simpa using hp

lemma pstrip_eq_self {l : List Char} (h : ∀ c ∈ l, isPyWs c = false) :
    pstrip l = l := by
  unfold pstrip
  rw [dropWhile_eq_self_of_all h,
      dropWhile_eq_self_of_all (fun c hc => h c (List.mem_reverse.mp hc)),
      List.reverse_reverse]

lemma pstrip_eq_nil_iff {l : List Char} :
    pstrip l = [] ↔ ∀ c ∈ l, isPyWs c = true := by
  constructor
  · intro h c hc
    unfold pstrip at h
    rw [List.reverse_eq_nil_iff, List.dropWhile_eq_nil_iff] at h
    have h' : ∀ c ∈ l.dropWhile isPyWs, isPyWs c = true := by
      intro d hd
      exact h d (List.mem_reverse.mpr hd)
    have := List.takeWhile_append_dropWhile (p := isPyWs) (l := l)
    rw [← this] at hc
    rcases List.mem_append.mp hc with h1 | h2
    · exact List.mem_takeWhile_imp h1
    · exact h' c h2
  · intro h
    unfold pstrip
    rw [dropWhile_eq_nil_of_all h]
    rfl

lemma dropWhile_idem {p : Char → Bool} (l : List Char) :
    (l.dropWhile p).dropWhile p = l.dropWhile p := by
  cases h : l.dropWhile p with
  | nil => rfl
  | cons c cs => rw [List.dropWhile_cons, dropWhile_head_not h]; simp

lemma dropWhile_filter_comm (P : Char → Bool) :
    ∀ l : List Char,
      (l.filter P).dropWhile isPyWs = ((l.dropWhile isPyWs).filter P).dropWhile isPyWs := by
  intro l
  induction l with
  | nil => rfl
  | cons c cs ih =>
    by_cases hw : isPyWs c
    · rw [List.dropWhile_cons, if_pos hw]
      by_cases hp : P c
      · rw [List.filter_cons_of_pos hp, List.dropWhile_cons, if_pos hw]
        exact ih
      · rw [List.filter_cons_of_neg hp]
        exact ih
    · rw [List.dropWhile_cons, if_neg hw]

lemma rdropWs_cons_of_not_ws {c : Char} {xs : List Char} (hc : isPyWs c = false) :
    rdropWs (c :: xs) = c :: rdropWs xs := by
  unfold rdropWs
  rw [List.reverse_cons, List.dropWhile_append]
  by_cases h : (xs.reverse.dropWhile isPyWs).isEmpty
  · rw [if_pos h, List.isEmpty_iff.mp h]
    simp [List.dropWhile_cons, hc]
  · rw [if_neg h]
    simp

lemma rdropWs_cons_of_ws {c : Char} {xs : List Char} (hc : isPyWs c = true) :
    rdropWs (c :: xs) = if rdropWs xs = [] then [] else c :: rdropWs xs := by
  unfold rdropWs
  rw [List.reverse_cons, List.dropWhile_append]
  by_cases h : (xs.reverse.dropWhile isPyWs).isEmpty
  · rw [if_pos h, List.isEmpty_iff.mp h]
    simp [List.dropWhile_cons, hc]
  · rw [if_neg h]
    have h' : ¬ (xs.reverse.dropWhile isPyWs).reverse = [] := by
      simpa [List.reverse_eq_nil_iff] using List.isEmpty_iff.not.mp h
    rw [if_neg h']
    simp

lemma dropWhile_rdropWs_comm :
    ∀ l : List Char, (rdropWs l).dropWhile isPyWs = rdropWs (l.dropWhile isPyWs) := by
  intro l
  induction l with
  | nil => rfl
  | cons c cs ih =>
    by_cases hw : isPyWs c
    · rw [rdropWs_cons_of_ws hw, List.dropWhile_cons, if_pos hw]
      by_cases hnil : rdropWs cs = []
      · rw [if_pos hnil]
        rw [List.dropWhile_nil]
        rw [← ih, hnil]
        rfl
      · rw [if_neg hnil, List.dropWhile_cons, if_pos hw]
        exact ih
    · rw [rdropWs_cons_of_not_ws (by simpa using hw), List.dropWhile_cons, if_neg hw,
          List.dropWhile_cons, if_neg hw, rdropWs_cons_of_not_ws (by simpa using hw)]

lemma rdropWs_filter_comm (P : Char → Bool) (l : List Char) :
    rdropWs ((rdropWs l).filter P) = rdropWs (l.filter P) := by
  unfold rdropWs
  rw [← List.filter_reverse, List.reverse_reverse]
  rw [← dropWhile_filter_comm]
  rw [List.filter_reverse]

lemma pstrip_filter_pstrip (P : Char → Bool) (l : List Char) :
    pstrip ((pstrip l).filter P) = pstrip (l.filter P) := by
  have h1 : rdropWs (((rdropWs (l.dropWhile isPyWs)).filter P).dropWhile isPyWs)
      = (rdropWs ((rdropWs (l.dropWhile isPyWs)).filter P)).dropWhile isPyWs :=
    (dropWhile_rdropWs_comm _).symm
  have h2 : rdropWs ((rdropWs (l.dropWhile isPyWs)).filter P)
      = rdropWs ((l.dropWhile isPyWs).filter P) := rdropWs_filter_comm P _
  have h3 : (rdropWs ((l.dropWhile isPyWs).filter P)).dropWhile isPyWs
      = rdropWs (((l.dropWhile isPyWs).filter P).dropWhile isPyWs) :=
    dropWhile_rdropWs_comm _
  have h4 : (l.filter P).dropWhile isPyWs
      = ((l.dropWhile isPyWs).filter P).dropWhile isPyWs :=
    dropWhile_filter_comm P l
  calc pstrip ((pstrip l).filter P)
      = rdropWs (((rdropWs (l.dropWhile isPyWs)).filter P).dropWhile isPyWs) := rfl
    _ = (rdropWs ((rdropWs (l.dropWhile isPyWs)).filter P)).dropWhile isPyWs := h1
    _ = (rdropWs ((l.dropWhile isPyWs).filter P)).dropWhile isPyWs := by rw [h2]
    _ = rdropWs (((l.dropWhile isPyWs).filter P).dropWhile isPyWs) := h3
    _ = rdropWs ((l.filter P).dropWhile isPyWs) := by rw [← h4]
    _ = pstrip (l.filter P) := rfl

lemma filter_dropWhile_of_ws_fails {P : Char → Bool}
    (hP : ∀ c, isPyWs c = true → P c = false) (l : List Char) :
    (l.dropWhile isPyWs).filter P = l.filter P := by
  conv_rhs => rw [← List.takeWhile_append_dropWhile isPyWs l]
  rw [List.filter_append]
  have : (l.takeWhile isPyWs).filter P = [] := by
    rw [List.filter_eq_nil_iff]
    intro c hc
    simp [hP c (List.mem_takeWhile_imp hc)]
  rw [this, List.nil_append]

lemma filter_pstrip_of_ws_fails {P : Char → Bool}
    (hP : ∀ c, isPyWs c = true → P c = false) (l : List Char) :
    (pstrip l).filter P = l.filter P := by
  have h1 : (pstrip l).filter P = (rdropWs (l.dropWhile isPyWs)).filter P := rfl
  have h2 : ∀ m : List Char, (rdropWs m).filter P = m.filter P := by
    intro m
    unfold rdropWs
    rw [List.filter_reverse, filter_dropWhile_of_ws_fails hP, List.filter_reverse,
        List.reverse_reverse]
  rw [h1, h2, filter_dropWhile_of_ws_fails hP]

lemma isPyWs_not_digit {c : Char} (h : isPyWs c = true) : isDigitCh c = false := by
  cases hd : isDigitCh c with
  | false => rfl
  | true =>
    exfalso
    simp only [isPyWs, Bool.or_eq_true, decide_eq_true_eq, Bool.and_eq_true] at h
    simp only [isDigitCh, Bool.and_eq_true, decide_eq_true_eq] at hd
    omega

lemma isPyWs_digit_or_space {c : Char}
    (h : isPyWs c = true) (h2 : (isDigitCh c || c = ' ') = true) : c = ' ' := by
  simp only [Bool.or_eq_true, decide_eq_true_eq] at h2
  rcases h2 with h2 | h2
  · exact absurd h2 (by simp [isPyWs_not_digit h])
  · exact h2

lemma chunks2_spec :
    ∀ l : List Char, l.length % 2 = 0 →
      (chunks2 l).length = l.length / 2 ∧ ∀ p ∈ chunks2 l, p.length = 2 := by
  intro l
  induction l using chunks2.induct with
  | case1 => intro _; simp [chunks2]
  | case2 a => intro h; simp at h
  | case3 a b r ih =>
    intro h
    have hr : r.length % 2 = 0 := by simp at h; omega
    obtain ⟨hlen, hall⟩ := ih hr
    constructor
    · simp [chunks2, hlen]; omega
    · intro p hp
      simp only [chunks2, List.mem_cons] at hp
      rcases hp with rfl | hp
      · rfl
      · exact hall p hp

lemma lowerX_of_ws {c : Char} (h : isPyWs c = true) : lowerX c = c := by
  simp only [isPyWs, Bool.or_eq_true, decide_eq_true_eq, Bool.and_eq_true] at h
  unfold lowerX
  split_ifs with h1 h2 h3
  · exfalso; omega
  · exfalso; omega
  · exfalso; omega
  · rfl

lemma litCI_nil : litCI [] = .eps := rfl

lemma litCI_cons (c : Char) (cs : List Char) :
    litCI (c :: cs) = .seq (.cls (ciEq c)) (litCI cs) := rfl

lemma mem_mtch_eps {input : List Char} {fuel i : Nat} {g : GroupMap}
    {o : Nat × GroupMap} (h : o ∈ mtch input fuel .eps i g) : o = (i, g) := by
  cases fuel with
  | zero => simp [mtch] at h
  | succ f => simpa [mtch] using h

lemma mem_mtch_cls {input : List Char} {fuel i : Nat} {p : Char → Bool} {g : GroupMap}
    {o : Nat × GroupMap} (h : o ∈ mtch input fuel (.cls p) i g) :
    ∃ c, input[i]? = some c ∧ p c = true ∧ o = (i + 1, g) := by
  cases fuel with
  | zero => simp [mtch] at h
  | succ f =>
    cases hc : input[i]? with
    | none => simp [mtch, hc] at h
    | some c =>
      by_cases hp : p c
      · simp only [mtch, hc, hp, if_true, List.mem_singleton] at h
        exact ⟨c, rfl, hp, h⟩
      · simp [mtch, hc, hp] at h

lemma mem_mtch_seq {input : List Char} {fuel i : Nat} {a b : RE} {g : GroupMap}
    {o : Nat × GroupMap} (h : o ∈ mtch input fuel (.seq a b) i g) :
    ∃ f o1, fuel = f + 1 ∧ o1 ∈ mtch input f a i g ∧ o ∈ mtch input f b o1.1 o1.2 := by
  cases fuel with
  | zero => simp [mtch] at h
  | succ f =>
    simp only [mtch, List.mem_flatMap] at h
    obtain ⟨o1, h1, h2⟩ := h
    exact ⟨f, o1, rfl, h1, h2⟩

lemma mem_mtch_alt {input : List Char} {fuel i : Nat} {a b : RE} {g : GroupMap}
    {o : Nat × GroupMap} (h : o ∈ mtch input fuel (.alt a b) i g) :
    ∃ f, fuel = f + 1 ∧ (o ∈ mtch input f a i g ∨ o ∈ mtch input f b i g) := by
  cases fuel with
  | zero => simp [mtch] at h
  | succ f =>
    simp only [mtch, List.mem_append] at h
    exact ⟨f, rfl, h⟩

lemma mem_mtch_group {input : List Char} {fuel i n : Nat} {a : RE} {g : GroupMap}
    {o : Nat × GroupMap} (h : o ∈ mtch input fuel (.group n a) i g) :
    ∃ f o1, fuel = f + 1 ∧ o1 ∈ mtch input f a i g ∧ o = (o1.1, setG o1.2 n i o1.1) := by
  cases fuel with
  | zero => simp [mtch] at h
  | succ f =>
    simp only [mtch, List.mem_map] at h
    obtain ⟨o1, h1, h2⟩ := h
    exact ⟨f, o1, rfl, h1, h2.symm⟩

lemma mem_mtch_wordB {input : List Char} {fuel i : Nat} {g : GroupMap}
    {o : Nat × GroupMap} (h : o ∈ mtch input fuel .wordB i g) : o = (i, g) := by
  cases fuel with
  | zero => simp [mtch] at h
  | succ f =>
    by_cases hb : wordBoundary input i
    · simpa [mtch, hb] using h
    · simp [mtch, hb] at h

lemma mtch_noGroup {input : List Char} {n : Nat} :
    ∀ (fuel : Nat) (re : RE) (i : Nat) (g : GroupMap), noGroup n re →
      ∀ o ∈ mtch input fuel re i g, o.2 n = g n := by
  intro fuel
  induction fuel with
  | zero => intro re i g _ o ho; simp [mtch] at ho
  | succ f ih =>
    intro re i g hng o ho
    cases re with
    | eps =>
      have := mem_mtch_eps ho
      rw [this]
    | cls p =>
      obtain ⟨c, _, _, h4⟩ := mem_mtch_cls ho
      rw [h4]
    | seq a b =>
      simp only [mtch, List.mem_flatMap] at ho
      obtain ⟨o1, h1, h2⟩ := ho
      rw [ih b o1.1 o1.2 hng.2 o h2, ih a i g hng.1 o1 h1]
    | alt a b =>
      simp only [mtch, List.mem_append] at ho
      rcases ho with h1 | h1
      · exact ih a i g hng.1 o h1
      · exact ih b i g hng.2 o h1
    | opt a =>
      simp only [mtch, List.mem_append, List.mem_singleton] at ho
      rcases ho with h1 | h1
      · exact ih a i g hng o h1
      · rw [h1]
    | starG a =>
      simp only [mtch, List.mem_append, List.mem_singleton, List.mem_flatMap] at ho
      rcases ho with ⟨o1, h1, h2⟩ | h1
      · by_cases hlt : i < o1.1
        · rw [if_pos hlt] at h2
          rw [ih (.starG a) o1.1 o1.2 hng o h2, ih a i g hng o1 h1]
        · rw [if_neg hlt] at h2; simp at h2
      · rw [h1]
    | starL a =>
      simp only [mtch, List.mem_cons, List.mem_flatMap] at ho
      rcases ho with h1 | ⟨o1, h1, h2⟩
      · rw [h1]
      · by_cases hlt : i < o1.1
        · rw [if_pos hlt] at h2
          rw [ih (.starL a) o1.1 o1.2 hng o h2, ih a i g hng o1 h1]
        · rw [if_neg hlt] at h2; simp at h2
    | group m a =>
      simp only [mtch, List.mem_map] at ho
      obtain ⟨o1, h1, h2⟩ := ho
      rw [← h2]
      show setG o1.2 m i o1.1 n = g n
      unfold setG
      rw [if_neg (fun hnm => hng.1 hnm.symm), ih a i g hng.2 o1 h1]
    | wordB =>
      have := mem_mtch_wordB ho
      rw [this]

lemma ciEq_lower {p c : Char} (h : ciEq p c = true) : lowerX c = lowerX p := by
  simpa [ciEq] using h

lemma mtch_litCI {input : List Char} :
    ∀ (w : List Char) (fuel i : Nat) (g : GroupMap) (o : Nat × GroupMap),
      o ∈ mtch input fuel (litCI w) i g →
      o.1 = i + w.length ∧ o.2 = g ∧
        ((input.drop i).take w.length).map lowerX = w.map lowerX := by
  intro w
  induction w with
  | nil =>
    intro fuel i g o ho
    rw [litCI_nil] at ho
    have h := mem_mtch_eps ho
    rw [h]
    simp
  | cons c cs ih =>
    intro fuel i g o ho
    rw [litCI_cons] at ho
    obtain ⟨f, o1, rfl, h1, h2⟩ := mem_mtch_seq ho
    obtain ⟨ch, hch, hci, ho1⟩ := mem_mtch_cls h1
    rw [ho1] at h2
    obtain ⟨e1, e2, e3⟩ := ih f (i + 1) g o h2
    obtain ⟨hlt, hgetEq⟩ := List.getElem?_eq_some.mp hch
    have hdrop : input.drop i = ch :: input.drop (i + 1) := by
      rw [List.drop_eq_getElem_cons hlt, hgetEq]
    refine ⟨?_, e2, ?_⟩
    · rw [e1]; simp [List.length_cons]; omega
    · rw [hdrop]
      simp only [List.length_cons, List.take_succ_cons, List.map_cons]
      rw [ciEq_lower hci, e3]

lemma mem_mtch_reTitle {input : List Char} {fuel i : Nat} {g : GroupMap}
    {o : Nat × GroupMap} (h : o ∈ mtch input fuel reTitle i g) :
    ∃ w ∈ titleWords, o.1 = i + w.length ∧ o.2 = g ∧
      ((input.drop i).take w.length).map lowerX = w.map lowerX := by
  unfold reTitle at h
  obtain ⟨f1, rfl, h1⟩ := mem_mtch_alt h
  rcases h1 with h1 | h1
  · exact ⟨_, by simp [titleWords], mtch_litCI _ _ _ _ _ h1⟩
  obtain ⟨f2, rfl, h2⟩ := mem_mtch_alt h1
  rcases h2 with h2 | h2
  · exact ⟨_, by simp [titleWords], mtch_litCI _ _ _ _ _ h2⟩
  obtain ⟨f3, rfl, h3⟩ := mem_mtch_alt h2
  rcases h3 with h3 | h3
  · exact ⟨_, by simp [titleWords], mtch_litCI _ _ _ _ _ h3⟩
  obtain ⟨f4, rfl, h4⟩ := mem_mtch_alt h3
  rcases h4 with h4 | h4
  · exact ⟨_, by simp [titleWords], mtch_litCI _ _ _ _ _ h4⟩
  · exact ⟨_, by simp [titleWords], mtch_litCI _ _ _ _ _ h4⟩

lemma noGroup_one_rePersonTail : noGroup 1 rePersonTail := by
  simp only [rePersonTail, seqs, List.foldr, wsPlus, plusG, plusL, wsStar, litc,
    reDate, noGroup]
  norm_num [noGroup]

lemma research_mem {re : RE} {input : List Char} {r : Nat × Nat × GroupMap}
    (h : research re input = some r) :
    (r.2.1, r.2.2) ∈ mtch input (fuelFor re input) re r.1 emptyG := by
  unfold research at h
  obtain ⟨i, _, hf⟩ := List.exists_of_findSome?_eq_some h
  cases hm : mtch input (fuelFor re input) re i emptyG with
  | nil => rw [hm] at hf; simp at hf
  | cons o tail =>
    rw [hm] at hf
    simp only [Option.some.injEq] at hf
    rw [← hf]
    show (o.1, o.2) ∈ mtch input (fuelFor re input) re i emptyG
    rw [hm]
    exact List.mem_cons_self o tail

/-- Any match of the person pattern binds group 1 to a span that is a
case-insensitive occurrence of one of the five title words. -/
lemma rePerson_group1 {input : List Char} {fuel i : Nat}
    {o : Nat × GroupMap} (h : o ∈ mtch input fuel rePerson i emptyG) :
    ∃ w ∈ titleWords, o.2 1 = some (i, i + w.length) ∧
      ((input.drop i).take w.length).map lowerX = w.map lowerX := by
  unfold rePerson at h
  obtain ⟨f1, o1, rfl, hb, h1⟩ := mem_mtch_seq h
  have hbe := mem_mtch_wordB hb
  rw [hbe] at h1
  obtain ⟨f2, o2, rfl, hg, h2⟩ := mem_mtch_seq h1
  obtain ⟨f3, o3, rfl, ht, ho2⟩ := mem_mtch_group hg
  obtain ⟨w, hw, hlen, hgm, hmap⟩ := mem_mtch_reTitle ht
  refine ⟨w, hw, ?_, hmap⟩
  have hpres := mtch_noGroup _ rePersonTail o2.1 o2.2 noGroup_one_rePersonTail o h2
  rw [hpres, ho2]
  show setG o3.2 1 i o3.1 1 = some (i, i + w.length)
  unfold setG
  rw [if_pos rfl, hlen]

/-- C1: text acquisition uses exactly one source: if the concatenated,
stripped structural text has length strictly greater than 30, it is
returned and the OCR side of the environment is never consulted; for
every structural text of length at most 30, and on structural-extraction
failure, the newline-joined OCR result (not the structural text) is
returned (given the rasterizer is configured, the case governed by C8). -/
theorem text_acquisition_single_source
    (sp : Option (List String)) (ocr ocr' : List String) (pp pp' : Option String)
    (t : String) :
    (structuralTextOf sp = some t → 30 < t.length →
      extract_text_pdf ⟨sp, ocr, pp⟩ = .ok t ∧
      extract_text_pdf ⟨sp, ocr, pp⟩ = extract_text_pdf ⟨sp, ocr', pp'⟩) ∧
    (structuralTextOf sp = some t → t.length ≤ 30 → pyTruthyStr pp = true →
      extract_text_pdf ⟨sp, ocr, pp⟩ = .ok (ocrTextOf ocr)) ∧
    (sp = none → pyTruthyStr pp = true →
      extract_text_pdf ⟨sp, ocr, pp⟩ = .ok (ocrTextOf ocr)) := by
  refine ⟨?_, ?_, ?_⟩
  · intro hs h30
    constructor
    · unfold extract_text_pdf
      simp [hs, h30]
    · unfold extract_text_pdf
      simp [hs, h30]
  · intro hs hle hpp
    unfold extract_text_pdf
    simp [hs, Nat.not_lt.mpr hle, hpp]
  · intro hs hpp
    unfold extract_text_pdf
    simp [hs, structuralTextOf, hpp]

/-- Witness for C1: a long structural text is returned as-is; a short one
and a structural failure both yield the OCR text. -/
theorem text_acquisition_single_source_witness :
    extract_text_pdf ⟨some ["This PDF has a real embedded text layer."], ["ocr page"], none⟩
        = .ok "This PDF has a real embedded text layer." ∧
    extract_text_pdf ⟨some ["tiny"], ["ocr page"], some "/opt/poppler"⟩
        = .ok (ocrTextOf ["ocr page"]) ∧
    extract_text_pdf ⟨none, ["ocr page"], some "/opt/poppler"⟩
        = .ok (ocrTextOf ["ocr page"]) :=
  ⟨((text_acquisition_single_source (some ["This PDF has a real embedded text layer."])
      ["ocr page"] [] none none "This PDF has a real embedded text layer.").1
      (by decide) (by decide)).1,
   ((text_acquisition_single_source (some ["tiny"]) ["ocr page"] [] (some "/opt/poppler")
      none "tiny").2.1 (by decide) (by decide) (by decide)),
   ((text_acquisition_single_source none ["ocr page"] [] (some "/opt/poppler")
      none "").2.2 rfl (by decide))⟩

/-- C8: `extract_text_pdf` raises the `POPPLER_PATH` error exactly when the
OCR fallback is reached (structural failure or stripped length at most 30)
and `POPPLER_PATH` is not truthy; when the structural text exceeds 30
characters it succeeds with that text regardless of configuration; an
`Except.error` result carries no text. -/
theorem poppler_configuration_error (env : PdfEnv) :
    ((∃ e, extract_text_pdf env = .error e) ↔
      ocrNeeded env = true ∧ pyTruthyStr env.popplerPath = false) ∧
    (∀ t, structuralTextOf env.structuralPages = some t → 30 < t.length →
      extract_text_pdf env = .ok t) := by
  constructor
  · unfold extract_text_pdf ocrNeeded
    cases hs : structuralTextOf env.structuralPages with
    | none =>
      cases hp : pyTruthyStr env.popplerPath with
      | false => simp
      | true => simp
    | some t =>
      by_cases h30 : 30 < t.length
      · simp [h30, Nat.not_le.mpr h30]
      · have hle : t.length ≤ 30 := Nat.not_lt.mp h30
        cases hp : pyTruthyStr env.popplerPath with
        | false => simp [h30, hle]
        | true => simp [h30, hle]
  · intro t hs h30
    unfold extract_text_pdf
    simp [hs, h30]

/-- Witness for C8: with a failing structural read and no `POPPLER_PATH`,
an error is raised; with a long structural text, acquisition succeeds. -/
theorem poppler_configuration_error_witness :
    (∃ e, extract_text_pdf ⟨none, [], none⟩ = .error e) ∧
    extract_text_pdf ⟨some ["This PDF has a real embedded text layer."], [], none⟩
      = .ok "This PDF has a real embedded text layer." :=
  ⟨(poppler_configuration_error ⟨none, [], none⟩).1.mpr ⟨by decide, by decide⟩,
   (poppler_configuration_error ⟨some ["This PDF has a real embedded text layer."], [], none⟩).2
     "This PDF has a real embedded text layer." (by decide) (by decide)⟩

lemma charEq_of_toNat {a b : Char} (h : a.toNat = b.toNat) : a = b := by
  apply Char.ext
  have h' : a.val.toNat = b.val.toNat := h
  exact UInt32.toNat.inj h'

lemma lexLe_cons_iff {x y : Char} {xs ys : List Char} :
    lexLe (x :: xs) (y :: ys) = true ↔
      x.toNat < y.toNat ∨ (x.toNat = y.toNat ∧ lexLe xs ys = true) := by
  by_cases h1 : x.toNat < y.toNat
  · simp [lexLe, h1]
  · by_cases h2 : y.toNat < x.toNat
    · simp [lexLe, h1, h2]; omega
    · simp [lexLe, h1, h2]; omega

lemma lexLe_total : ∀ a b : List Char, lexLe a b = true ∨ lexLe b a = true := by
  intro a
  induction a with
  | nil => intro b; left; rfl
  | cons x xs ih =>
    intro b
    cases b with
    | nil => right; rfl
    | cons y ys =>
      rcases Nat.lt_trichotomy x.toNat y.toNat with h | h | h
      · left; exact lexLe_cons_iff.mpr (Or.inl h)
      · rcases ih ys with hy | hy
        · left; exact lexLe_cons_iff.mpr (Or.inr ⟨h, hy⟩)
        · right; exact lexLe_cons_iff.mpr (Or.inr ⟨h.symm, hy⟩)
      · right; exact lexLe_cons_iff.mpr (Or.inl h)

lemma lexLe_trans :
    ∀ a b c : List Char, lexLe a b = true → lexLe b c = true → lexLe a c = true := by
  intro a
  induction a with
  | nil => intro b c _ _; rfl
  | cons x xs ih =>
    intro b c hab hbc
    cases b with
    | nil => simp [lexLe] at hab
    | cons y ys =>
      cases c with
      | nil => simp [lexLe] at hbc
      | cons z zs =>
        rcases lexLe_cons_iff.mp hab with h1 | ⟨h1, h1'⟩ <;>
          rcases lexLe_cons_iff.mp hbc with h2 | ⟨h2, h2'⟩
        · exact lexLe_cons_iff.mpr (Or.inl (h1.trans h2))
        · exact lexLe_cons_iff.mpr (Or.inl (h2 ▸ h1))
        · exact lexLe_cons_iff.mpr (Or.inl (h1 ▸ h2))
        · exact lexLe_cons_iff.mpr (Or.inr ⟨h1.trans h2, ih ys zs h1' h2'⟩)

lemma lexLe_antisymm :
    ∀ a b : List Char, lexLe a b = true → lexLe b a = true → a = b := by
  intro a
  induction a with
  | nil =>
    intro b _ hba
    cases b with
    | nil => rfl
    | cons y ys => simp [lexLe] at hba
  | cons x xs ih =>
    intro b hab hba
    cases b with
    | nil => simp [lexLe] at hab
    | cons y ys =>
      rcases lexLe_cons_iff.mp hab with h1 | ⟨h1, h1'⟩ <;>
        rcases lexLe_cons_iff.mp hba with h2 | ⟨h2, h2'⟩
      · omega
      · omega
      · omega
      · rw [charEq_of_toNat h1, ih ys h1' h2']

lemma strLeB_refl (a : String) : strLeB a a = true := by
  unfold strLeB
  induction a.data with
  | nil => rfl
  | cons x xs ih => exact lexLe_cons_iff.mpr (Or.inr ⟨rfl, ih⟩)

/-- C9: the batch result order is the lexicographic order of the discovered
paths, independent of filesystem enumeration order; in particular
`b.pdf`, `a.pdf` are processed as `a.pdf` then `b.pdf`. -/
theorem batch_sorted_deterministic :
    (∀ (α : Type) (processDoc : String → α) (l₁ l₂ : List String),
        l₁.Perm l₂ → runBatch processDoc l₁ = runBatch processDoc l₂) ∧
    (∀ l : List String, List.Sorted (fun a b => strLeB a b = true)
        (List.insertionSort (fun a b => strLeB a b = true) l)) ∧
    runBatch (fun p => p) ["b.pdf", "a.pdf"] = ["a.pdf", "b.pdf"] := by
  haveI htot : IsTotal String (fun a b => strLeB a b = true) :=
    ⟨fun a b => lexLe_total a.data b.data⟩
  haveI htr : IsTrans String (fun a b => strLeB a b = true) :=
    ⟨fun a b c => lexLe_trans a.data b.data c.data⟩
  haveI hanti : IsAntisymm String (fun a b => strLeB a b = true) :=
    ⟨fun a b hab hba => by
      have h := lexLe_antisymm a.data b.data hab hba
      cases a; cases b; exact congrArg String.mk h⟩
  refine ⟨?_, ?_, by decide⟩
  · intro α processDoc l₁ l₂ hperm
    unfold runBatch
    congr 1
    exact List.eq_of_perm_of_sorted
      (((List.perm_insertionSort _ l₁).trans hperm).trans
        (List.perm_insertionSort _ l₂).symm)
      (List.sorted_insertionSort _ l₁)
      (List.sorted_insertionSort _ l₂)
  · intro l
    exact List.sorted_insertionSort _ l

/-- Witness for C9: the two enumeration orders of the same directory give
the same batch. -/
theorem batch_sorted_deterministic_witness :
    (["b.pdf", "a.pdf"] : List String).Perm ["a.pdf", "b.pdf"] ∧
    runBatch (fun p => p) ["b.pdf", "a.pdf"] = runBatch (fun p => p) ["a.pdf", "b.pdf"] :=
  ⟨by decide,
   batch_sorted_deterministic.1 String (fun p => p) ["b.pdf", "a.pdf"] ["a.pdf", "b.pdf"]
     (by decide)⟩

lemma commaToDot_no_comma (v : List Char) : ∀ c ∈ commaToDot v, ¬ c = ',' := by
  intro c hc
  simp only [commaToDot, List.mem_map] at hc
  obtain ⟨x, _, rfl⟩ := hc
  by_cases hx : x = ','
  · simp [hx]
  · simp [hx]

/-- C4: the person pattern is atomic: `title`, `full_name` and `birthdate`
are all `none` or all `some` together, and the dateless text
`"Madame Dupont"` yields all three `none`. -/
theorem person_fields_atomic (text : String) :
    (((parse_ordonnance text).title = none ∧
      (parse_ordonnance text).full_name = none ∧
      (parse_ordonnance text).birthdate = none) ∨
     (∃ a b c, (parse_ordonnance text).title = some a ∧
       (parse_ordonnance text).full_name = some b ∧
       (parse_ordonnance text).birthdate = some c)) ∧
    ((parse_ordonnance "Madame Dupont").title = none ∧
     (parse_ordonnance "Madame Dupont").full_name = none ∧
     (parse_ordonnance "Madame Dupont").birthdate = none) := by
  constructor
  · cases hp : personCaptures text with
    | none => left; simp [parse_ordonnance, hp]
    | some p =>
      right
      exact ⟨String.mk (pstrip p.1), String.mk (pstrip p.2.1), String.mk (pstrip p.2.2),
        by simp [parse_ordonnance, hp], by simp [parse_ordonnance, hp],
        by simp [parse_ordonnance, hp]⟩
  · refine ⟨?_, ?_, ?_⟩ <;> decide

/-- C5: each captured eye value is stored with every comma replaced by a
dot, and the field is `none` exactly when the pattern finds nothing;
`"-1,25"` is stored as `"-1.25"` and `"+0.50"` unchanged. -/
theorem eye_value_comma_normalisation (text : String) :
    ((odCapture text = none → (parse_ordonnance text).eye_right = none) ∧
     (∀ v, odCapture text = some v →
        (parse_ordonnance text).eye_right = some (String.mk (commaToDot v)) ∧
        ∀ c ∈ commaToDot v, ¬ c = ',') ∧
     (ogCapture text = none → (parse_ordonnance text).eye_left = none) ∧
     (∀ v, ogCapture text = some v →
        (parse_ordonnance text).eye_left = some (String.mk (commaToDot v)) ∧
        ∀ c ∈ commaToDot v, ¬ c = ',')) ∧
    (parse_ordonnance "Oeil Droit : -1,25").eye_right = some "-1.25" ∧
    (parse_ordonnance "Oeil Gauche : +0.50").eye_left = some "+0.50" := by
  refine ⟨⟨?_, ?_, ?_, ?_⟩, by decide, by decide⟩
  · intro h; simp [parse_ordonnance, h]
  · intro v h; exact ⟨by simp [parse_ordonnance, h], commaToDot_no_comma v⟩
  · intro h; simp [parse_ordonnance, h]
  · intro v h; exact ⟨by simp [parse_ordonnance, h], commaToDot_no_comma v⟩

/-- Witness for C5: on `"Oeil Droit : -1,25"` the pattern captures
`"-1,25"` and the stored value is its comma-to-dot image. -/
theorem eye_value_comma_normalisation_witness :
    odCapture "Oeil Droit : -1,25" = some "-1,25".data ∧
    (parse_ordonnance "Oeil Droit : -1,25").eye_right
      = some (String.mk (commaToDot "-1,25".data)) :=
  ⟨by decide,
   (((eye_value_comma_normalisation "Oeil Droit : -1,25").1.2.1 "-1,25".data
      (by decide)).1)⟩

lemma format_number_isSome {l : List Char} (h : ¬ l = []) :
    (format_number_2digit_groups l).isSome = true := by
  cases l with
  | nil => exact absurd rfl h
  | cons d rest => rfl

/-- C7: both extractors are total: `extract_client_info` always returns a
pair (its only unguarded partial operation, the `digits[0]` index, is never
reached with an empty list), and `parse_ordonnance` always returns a
record; pattern absence surfaces as `none` fields, never as a failure. -/
theorem extractors_total (text : String) :
    (∃ nm no, extract_client_info text = some (nm, no)) ∧
    (∃ r : OrdRecord, parse_ordonnance text = r) := by
  refine ⟨?_, ⟨_, rfl⟩⟩
  have hstep : ∀ cn0 : Option (List Char), ∃ v, clientNumberStep cn0 = some v := by
    intro cn0
    cases cn0 with
    | none => exact ⟨none, rfl⟩
    | some cn =>
      by_cases hnil : cn = []
      · exact ⟨some cn, by simp [clientNumberStep, hnil]⟩
      · by_cases h15 : 15 ≤ (cn.filter isDigitCh).length
        · have htk : ¬ (cn.filter isDigitCh).take 15 = [] := by
            intro h0
            have hl := congrArg List.length h0
            rw [List.length_take] at hl
            rcases Nat.min_eq_zero_iff.mp hl with h2 | h2 <;> omega
          obtain ⟨f, hf⟩ := Option.isSome_iff_exists.mp (format_number_isSome htk)
          exact ⟨some f, by simp [clientNumberStep, hnil, h15, hf]⟩
        · exact ⟨some (pstrip (cn.filter fun c => isDigitCh c || c = ' ')),
            by simp [clientNumberStep, hnil, h15]⟩
  obtain ⟨v, hv⟩ := hstep ((numCaptureRaw text).map pstrip)
  unfold extract_client_info
  rw [hv]
  exact ⟨_, _, rfl⟩

/-- C10: `format_number_2digit_groups` indexes `digits[0]` without a guard
and fails on the empty string, but inside `extract_client_info` it is only
applied to the first 15 digits of a string with at least 15 digits, which
is never empty, so the call site is safe. -/
theorem format_number_call_site_safe :
    format_number_2digit_groups [] = none ∧
    ∀ digits : List Char, 15 ≤ digits.length →
      (format_number_2digit_groups (digits.take 15)).isSome = true := by
  constructor
  · rfl
  · intro digits h
    apply format_number_isSome
    intro h0
    have hl := congrArg List.length h0
    rw [List.length_take] at hl
    rcases Nat.min_eq_zero_iff.mp hl with h2 | h2 <;> omega

/-- Witness for C10: a concrete 18-digit string passes the guard and the
call succeeds. -/
theorem format_number_call_site_safe_witness :
    15 ≤ ("748012345678901234".data : List Char).length ∧
    (format_number_2digit_groups ("748012345678901234".data.take 15)).isSome = true :=
  ⟨by decide, format_number_call_site_safe.2 "748012345678901234".data (by decide)⟩

lemma clientNumberStep_some_ge15 {cn : List Char} (hne : ¬ cn = [])
    (h15 : 15 ≤ (cn.filter isDigitCh).length) :
    clientNumberStep (some cn) =
      Option.map some (format_number_2digit_groups ((cn.filter isDigitCh).take 15)) := by
  show (if cn = [] then some (some cn)
      else
        let digits := cn.filter isDigitCh
        if 15 ≤ digits.length then
          match format_number_2digit_groups (digits.take 15) with
          | some f => some (some f)
          | none => none
        else some (some (pstrip (cn.filter fun c => isDigitCh c || c = ' ')))) = _
  rw [if_neg hne]
  dsimp only
  rw [if_pos h15]
  cases hf : format_number_2digit_groups ((cn.filter isDigitCh).take 15) with
  | some f => rfl
  | none => rfl

lemma clientNumberStep_some_lt15 {cn : List Char} (hne : ¬ cn = [])
    (hlt : ¬ 15 ≤ (cn.filter isDigitCh).length) :
    clientNumberStep (some cn) =
      some (some (pstrip (cn.filter fun c => isDigitCh c || c = ' '))) := by
  show (if cn = [] then some (some cn)
      else
        let digits := cn.filter isDigitCh
        if 15 ≤ digits.length then
          match format_number_2digit_groups (digits.take 15) with
          | some f => some (some f)
          | none => none
        else some (some (pstrip (cn.filter fun c => isDigitCh c || c = ' ')))) = _
  rw [if_neg hne]
  dsimp only
  rw [if_neg hlt]

/-- C2: when the digit-stripped captured identifier has at least 15 digits,
the stored number is the first 15 digits re-grouped as the first digit
alone followed by seven pairs, joined by single spaces (8 tokens); the
claim's example digits "748012345678901234" regroup to
"7 48 01 23 45 67 89 01". -/
theorem client_number_regroup_15 (text : String) (raw : List Char)
    (hcap : numCaptureRaw text = some raw)
    (h15 : 15 ≤ (raw.filter isDigitCh).length) :
    ∃ nm d rest,
      (raw.filter isDigitCh).take 15 = d :: rest ∧
      rest.length = 14 ∧
      extract_client_info text =
        some (nm, some (String.mk (List.intercalate [' '] ([d] :: chunks2 rest)))) ∧
      (chunks2 rest).length = 7 ∧
      (∀ p ∈ chunks2 rest, p.length = 2) ∧
      ("748012345678901234".data.filter isDigitCh).take 15 = "748012345678901".data ∧
      format_number_2digit_groups "748012345678901".data
        = some "7 48 01 23 45 67 89 01".data := by
  have hdig : (pstrip raw).filter isDigitCh = raw.filter isDigitCh :=
    filter_pstrip_of_ws_fails (fun c hc => isPyWs_not_digit hc) raw
  have h15' : 15 ≤ ((pstrip raw).filter isDigitCh).length := by rw [hdig]; exact h15
  have hne : ¬ pstrip raw = [] := by
    intro h0
    rw [h0] at h15'
    simp at h15'
  cases hd : (raw.filter isDigitCh).take 15 with
  | nil =>
    exfalso
    have hl := congrArg List.length hd
    rw [List.length_take] at hl
    rcases Nat.min_eq_zero_iff.mp hl with h2 | h2 <;> omega
  | cons d rest =>
    have hlen : (d :: rest).length = 15 := by
      rw [← hd, List.length_take]
      exact Nat.min_eq_left h15
    have hrest : rest.length = 14 := by
      rw [List.length_cons] at hlen
      omega
    obtain ⟨hchlen, hchall⟩ := chunks2_spec rest (by omega)
    have hstep : clientNumberStep (some (pstrip raw)) =
        some (some (List.intercalate [' '] ([d] :: chunks2 rest))) := by
      rw [clientNumberStep_some_ge15 hne h15', hdig, hd]
      rfl
    refine ⟨(nameCaptureRaw text).map (fun r => String.mk (pstrip r)), d, rest,
      rfl, hrest, ?_, by rw [hchlen, hrest], hchall, by decide, by decide⟩
    show Option.map
        (fun n : Option (List Char) =>
          ((nameCaptureRaw text).map (fun r => String.mk (pstrip r)), n.map String.mk))
        (clientNumberStep ((numCaptureRaw text).map pstrip)) = _
    rw [hcap, show Option.map pstrip (some raw) = some (pstrip raw) from rfl, hstep]
    rfl

/-- Witness for C2: the claim's example identifier, captured from a
concrete label line. -/
theorem client_number_regroup_15_witness :
    ∃ nm d rest,
      ("748012345678901234".data.filter isDigitCh).take 15 = d :: rest ∧
      rest.length = 14 ∧
      extract_client_info "Mon numéro : 748012345678901234" =
        some (nm, some (String.mk (List.intercalate [' '] ([d] :: chunks2 rest)))) ∧
      (chunks2 rest).length = 7 ∧
      (∀ p ∈ chunks2 rest, p.length = 2) ∧
      ("748012345678901234".data.filter isDigitCh).take 15 = "748012345678901".data ∧
      format_number_2digit_groups "748012345678901".data
        = some "7 48 01 23 45 67 89 01".data :=
  client_number_regroup_15 "Mon numéro : 748012345678901234" "748012345678901234".data
    (by decide) (by decide)

/-- C6: when the digit-stripped captured identifier has fewer than 15
digits, the stored number is the original captured span with every
character other than digits and spaces removed and the result trimmed
(internal spacing preserved, no re-grouping). -/
theorem client_number_best_effort (text : String) (raw : List Char)
    (hcap : numCaptureRaw text = some raw)
    (hlt : (raw.filter isDigitCh).length < 15) :
    ∃ nm, extract_client_info text =
      some (nm, some (String.mk (pstrip (raw.filter fun c => isDigitCh c || c = ' ')))) := by
  have hdig : (pstrip raw).filter isDigitCh = raw.filter isDigitCh :=
    filter_pstrip_of_ws_fails (fun c hc => isPyWs_not_digit hc) raw
  by_cases hnil : pstrip raw = []
  · have hraw_ws : ∀ c ∈ raw, isPyWs c = true := pstrip_eq_nil_iff.mp hnil
    have hclaim : pstrip (raw.filter fun c => isDigitCh c || c = ' ') = [] :=
      pstrip_eq_nil_iff.mpr fun c hc => hraw_ws c (List.mem_of_mem_filter hc)
    have hstep : clientNumberStep (some (pstrip raw)) = some (some []) := by
      rw [hnil]
      rfl
    refine ⟨(nameCaptureRaw text).map (fun r => String.mk (pstrip r)), ?_⟩
    show Option.map
        (fun n : Option (List Char) =>
          ((nameCaptureRaw text).map (fun r => String.mk (pstrip r)), n.map String.mk))
        (clientNumberStep ((numCaptureRaw text).map pstrip)) = _
    rw [hcap, show Option.map pstrip (some raw) = some (pstrip raw) from rfl, hstep,
      hclaim]
    rfl
  · have h15' : ¬ 15 ≤ ((pstrip raw).filter isDigitCh).length := by
      rw [hdig]
      omega
    have hcomm : pstrip ((pstrip raw).filter fun c => isDigitCh c || c = ' ')
        = pstrip (raw.filter fun c => isDigitCh c || c = ' ') :=
      pstrip_filter_pstrip _ raw
    have hstep : clientNumberStep (some (pstrip raw)) =
        some (some (pstrip (raw.filter fun c => isDigitCh c || c = ' '))) := by
      rw [clientNumberStep_some_lt15 hnil h15', hcomm]
    refine ⟨(nameCaptureRaw text).map (fun r => String.mk (pstrip r)), ?_⟩
    show Option.map
        (fun n : Option (List Char) =>
          ((nameCaptureRaw text).map (fun r => String.mk (pstrip r)), n.map String.mk))
        (clientNumberStep ((numCaptureRaw text).map pstrip)) = _
    rw [hcap, show Option.map pstrip (some raw) = some (pstrip raw) from rfl, hstep]
    rfl

/-- Witness for C6: a 13-digit identifier keeps its original spacing. -/
theorem client_number_best_effort_witness :
    ∃ nm, extract_client_info "Mon numéro : 2 74 01 23 456 789" =
      some (nm, some (String.mk (pstrip ("2 74 01 23 456 789".data.filter
        fun c => isDigitCh c || c = ' ')))) :=
  client_number_best_effort "Mon numéro : 2 74 01 23 456 789"
    "2 74 01 23 456 789".data (by decide) (by decide)

lemma titleWords_lower_mem : ∀ w ∈ titleWords, w.map lowerX ∈ titleWordsLower := by
  decide

lemma titleWords_lower_no_ws :
    ∀ w ∈ titleWords, ∀ x ∈ w.map lowerX, isPyWs x = false := by
  decide

/-- Counterexample to C3 as stated: the source pattern has a fifth
alternative `Enfant` (src/ordonnance.py line 73), so the input
`"Enfant Dupont (01/02/2003)"` produces the non-null title `"Enfant"`,
which is case-insensitively distinct from all four claimed titles. -/
theorem person_title_enfant_counterexample :
    (parse_ordonnance "Enfant Dupont (01/02/2003)").title = some "Enfant" ∧
    (∀ w ∈ ["Monsieur".data, "Madame".data, "Mlle".data, "M.".data],
      ¬ "Enfant".data.map lowerX = w.map lowerX) := by
  constructor
  · decide
  · decide

/-- C3 (amended): whenever `parse_ordonnance` produces a non-null title,
that title is, case-insensitively, one of the five alternatives
`Monsieur`, `Madame`, `Mlle`, `M.`, `Enfant` of the source pattern. -/
theorem person_title_in_five (text : String) (s : String)
    (h : (parse_ordonnance text).title = some s) :
    s.data.map lowerX ∈ titleWordsLower := by
  cases hp : personCaptures text with
  | none => simp [parse_ordonnance, hp] at h
  | some pc =>
    rw [parse_ordonnance, hp] at h
    have h' : String.mk (pstrip pc.1) = s := Option.some.inj h
    cases hr : research rePerson (normT text) with
    | none => rw [personCaptures, hr] at hp; simp at hp
    | some m =>
      rw [personCaptures, hr] at hp
      have hp' : (capture (normT text) m 1, capture (normT text) m 2,
          capture (normT text) m 3) = pc := Option.some.inj hp
      have hmem := research_mem hr
      obtain ⟨w, hw, hbind, hmap⟩ := rePerson_group1 hmem
      have hbind' : m.2.2 1 = some (m.1, m.1 + w.length) := hbind
      have hcap1 : capture (normT text) m 1
          = ((normT text).drop m.1).take w.length := by
        unfold capture
        rw [hbind']
        show ((normT text).drop m.1).take (m.1 + w.length - m.1) = _
        rw [Nat.add_sub_cancel_left]
      have hnws : ∀ c ∈ ((normT text).drop m.1).take w.length, isPyWs c = false := by
        intro c hc
        have hcl : lowerX c ∈ w.map lowerX := by
          rw [← hmap]
          exact List.mem_map_of_mem lowerX hc
        have h1 := titleWords_lower_no_ws w hw (lowerX c) hcl
        cases hwsc : isPyWs c with
        | false => rfl
        | true =>
          rw [lowerX_of_ws hwsc] at h1
          rw [hwsc] at h1
          simp at h1
      have hsdata : s.data = ((normT text).drop m.1).take w.length := by
        rw [← h']
        show pstrip pc.1 = _
        rw [← hp']
        show pstrip (capture (normT text) m 1) = _
        rw [hcap1]
        exact pstrip_eq_self hnws
      rw [hsdata, hmap]
      exact titleWords_lower_mem w hw

/-- Witness for the amended C3: a matching input whose lowercased title is
in the five-word list. -/
theorem person_title_in_five_witness :
    (parse_ordonnance "Madame Dupont (01/02/2003)").title = some "Madame" ∧
    "Madame".data.map lowerX ∈ titleWordsLower :=
  ⟨by decide,
   person_title_in_five "Madame Dupont (01/02/2003)" "Madame" (by decide)⟩
